import Mathlib

/-!
Verification development for the mean-preserving spline module
(`mean_pres_splines.py`, `math_functions.py`).

Python floats are modelled as exact rationals (ℚ); Python lists as `List ℚ`;
optional parameters as `Option`; raised exceptions as `Except PyErr`.
The external R `splinefun(method = hyman)` fit/evaluate step is not part of
the repository sources, so it is modelled from the specification
(sections 4.2 and 4.3): Hyman-filtered cubic Hermite tangents and piecewise
Hermite evaluation.
-/

/-- Failure modes of the translated Python code.  The first seven model the
exceptions the interpreter or the external numerical runtime actually raise;
`incrementMismatch` and `rowLength` model the specification's error taxonomy
and are never produced by the translated code (which has no such checks). -/
inductive PyErr where
  | unboundLocalQs
  | nothingPassed
  | typeErrorNone
  | indexError
  | lengthMismatch
  | degenerateControl
  | valueError
  | incrementMismatch
  | rowLength
deriving DecidableEq

/-- Secant slope between consecutive control points (spec 4.2 step 1). -/
def secant (x y : ℕ → ℚ) (i : ℕ) : ℚ := (y (i + 1) - y i) / (x (i + 1) - x i)

/-- Clamp the magnitude of `m` to at most `b`, preserving sign (spec 4.2 step 3). -/
def clampMag (m b : ℚ) : ℚ := if m < -b then -b else if b < m then b else m

/-- Modelled from the spec: per-point tangents of the Hyman monotonicity filter
(spec 4.2).  Endpoints use the single adjacent secant; interior points start
from the average of the two adjacent secants, forced to zero at a local
extremum, otherwise clamped to three times the smaller adjacent secant
magnitude.  The fit itself is performed by the external R runtime and is not
in the repository sources. -/
def tangent (x y : ℕ → ℚ) (n i : ℕ) : ℚ :=
  if i = 0 then clampMag (secant x y 0) (3 * |secant x y 0|)
  else if i = n then clampMag (secant x y (n - 1)) (3 * |secant x y (n - 1)|)
  else if secant x y (i - 1) * secant x y i < 0 then 0
  else clampMag ((secant x y (i - 1) + secant x y i) / 2)
    (3 * min |secant x y (i - 1)| |secant x y i|)

/-- Cubic Hermite value on a normalized interval: endpoint values `y0`, `y1`,
endpoint tangents `a`, `b` (already scaled by the interval width), parameter
`t` in `[0,1]`. -/
def hermiteVal (y0 y1 a b t : ℚ) : ℚ :=
  y0 + (y1 - y0) * (3 * t ^ 2 - 2 * t ^ 3) + a * (t ^ 3 - 2 * t ^ 2 + t) + b * (t ^ 3 - t ^ 2)

/-- Analytic derivative of `hermiteVal` with respect to `t`. -/
def hermiteDeriv (y0 y1 a b t : ℚ) : ℚ :=
  (y1 - y0) * (6 * t - 6 * t ^ 2) + a * (3 * t ^ 2 - 4 * t + 1) + b * (3 * t ^ 2 - 2 * t)

/-- Locate the bracketing control interval for a query position (spec 4.3):
the largest interval index `i < n` with `x i ≤ q` (0 if none). -/
def locate (x : ℕ → ℚ) : ℕ → ℚ → ℕ
  | 0, _ => 0
  | m + 1, q => if x m ≤ q then m else locate x m q

/-- Hermite evaluation on interval `i` of the fitted spline. -/
def evalAt (x y : ℕ → ℚ) (n i : ℕ) (q : ℚ) : ℚ :=
  hermiteVal (y i) (y (i + 1))
    ((x (i + 1) - x i) * tangent x y n i)
    ((x (i + 1) - x i) * tangent x y n (i + 1))
    ((q - x i) / (x (i + 1) - x i))

/-- Hermite derivative evaluation on interval `i` of the fitted spline. -/
def evalDAt (x y : ℕ → ℚ) (n i : ℕ) (q : ℚ) : ℚ :=
  hermiteDeriv (y i) (y (i + 1))
    ((x (i + 1) - x i) * tangent x y n i)
    ((x (i + 1) - x i) * tangent x y n (i + 1))
    ((q - x i) / (x (i + 1) - x i)) / (x (i + 1) - x i)

/-- Modelled from the spec: value-mode spline evaluation (spec 4.3). -/
def splineEval (x y : ℕ → ℚ) (n : ℕ) (q : ℚ) : ℚ := evalAt x y n (locate x n q) q

/-- Modelled from the spec: derivative-mode spline evaluation (spec 4.3). -/
def splineEvalD (x y : ℕ → ℚ) (n : ℕ) (q : ℚ) : ℚ := evalDAt x y n (locate x n q) q

/-- Nonnegativity of the divided increment of the Hermite cubic when both
scaled tangents lie in `[0, 3Δ]` (the Hyman box) and `0 ≤ t ≤ t' ≤ 1`. -/
lemma hermiteF_nonneg (Δ a b t t' : ℚ) (hΔ : 0 ≤ Δ)
    (ha0 : 0 ≤ a) (ha3 : a ≤ 3 * Δ) (hb0 : 0 ≤ b) (hb3 : b ≤ 3 * Δ)
    (ht0 : 0 ≤ t) (htt : t ≤ t') (ht1 : t' ≤ 1) :
    0 ≤ Δ * (3 * (t + t') - 2 * (t ^ 2 + t * t' + t' ^ 2)) +
      a * ((t ^ 2 + t * t' + t' ^ 2) - 2 * (t + t') + 1) +
      b * ((t ^ 2 + t * t' + t' ^ 2) - (t + t')) := by
  have ht'0 : 0 ≤ t' := le_trans ht0 htt
  have ht1' : t ≤ 1 := le_trans htt ht1
  have hV1 : 0 ≤ 3 * (t + t') - 2 * (t ^ 2 + t * t' + t' ^ 2) := by
    nlinarith [mul_nonneg ht0 (by linarith : (0:ℚ) ≤ 3 - 2 * t - t'),
      mul_nonneg ht'0 (by linarith : (0:ℚ) ≤ 3 - t - 2 * t')]
  have hV2 : 0 ≤ (t ^ 2 + t * t' + t' ^ 2) - 3 * (t + t') + 3 := by
    nlinarith [sq_nonneg (1 - t), sq_nonneg (1 - t'),
      mul_nonneg (by linarith : (0:ℚ) ≤ 1 - t) (by linarith : (0:ℚ) ≤ 1 - t')]
  have hV3 : 0 ≤ t ^ 2 + t * t' + t' ^ 2 := by
    nlinarith [sq_nonneg t, sq_nonneg t', mul_nonneg ht0 ht'0]
  have hV4 : 0 ≤ 4 * (t ^ 2 + t * t' + t' ^ 2) - 6 * (t + t') + 3 := by
    nlinarith [sq_nonneg (t + t' - 1), sq_nonneg (t - t')]
  rcases eq_or_lt_of_le hΔ with hΔ0 | hΔpos
  · have ha' : a = 0 := le_antisymm (by linarith) ha0
    have hb' : b = 0 := le_antisymm (by linarith) hb0
    rw [ha', hb', ← hΔ0]
    ring_nf
    exact le_refl 0
  · have hterm1 : 0 ≤ (3 * Δ - a) * (3 * Δ - b) *
        (Δ * (3 * (t + t') - 2 * (t ^ 2 + t * t' + t' ^ 2))) :=
      mul_nonneg (mul_nonneg (by linarith) (by linarith)) (mul_nonneg hΔ hV1)
    have hterm2 : 0 ≤ a * (3 * Δ - b) *
        (Δ * ((t ^ 2 + t * t' + t' ^ 2) - 3 * (t + t') + 3)) :=
      mul_nonneg (mul_nonneg ha0 (by linarith)) (mul_nonneg hΔ hV2)
    have hterm3 : 0 ≤ (3 * Δ - a) * b * (Δ * (t ^ 2 + t * t' + t' ^ 2)) :=
      mul_nonneg (mul_nonneg (by linarith) hb0) (mul_nonneg hΔ hV3)
    have hterm4 : 0 ≤ a * b *
        (Δ * (4 * (t ^ 2 + t * t' + t' ^ 2) - 6 * (t + t') + 3)) :=
      mul_nonneg (mul_nonneg ha0 hb0) (mul_nonneg hΔ hV4)
    nlinarith [hterm1, hterm2, hterm3, hterm4, mul_pos hΔpos hΔpos]

/-- Monotonicity of the Hermite cubic on one interval under the Hyman tangent
bounds: the value at parameter `t'` dominates the value at `t ≤ t'`. -/
lemma hermiteVal_mono (y0 y1 a b t t' : ℚ) (hy : y0 ≤ y1)
    (ha0 : 0 ≤ a) (ha3 : a ≤ 3 * (y1 - y0)) (hb0 : 0 ≤ b) (hb3 : b ≤ 3 * (y1 - y0))
    (ht0 : 0 ≤ t) (htt : t ≤ t') (ht1 : t' ≤ 1) :
    hermiteVal y0 y1 a b t ≤ hermiteVal y0 y1 a b t' := by
  have hF := hermiteF_nonneg (y1 - y0) a b t t' (by linarith) ha0 ha3 hb0 hb3 ht0 htt ht1
  have hs : 0 ≤ t' - t := by linarith
  have key : hermiteVal y0 y1 a b t' - hermiteVal y0 y1 a b t =
      (t' - t) * ((y1 - y0) * (3 * (t + t') - 2 * (t ^ 2 + t * t' + t' ^ 2)) +
        a * ((t ^ 2 + t * t' + t' ^ 2) - 2 * (t + t') + 1) +
        b * ((t ^ 2 + t * t' + t' ^ 2) - (t + t'))) := by
    simp only [hermiteVal]; ring
  have hprod := mul_nonneg hs hF
  linarith [key, hprod]

lemma clampMag_nonneg_le (m b : ℚ) (hm : 0 ≤ m) (hb : 0 ≤ b) :
    0 ≤ clampMag m b ∧ clampMag m b ≤ b := by
  unfold clampMag
  split_ifs with h1 h2
  · constructor <;> linarith
  · constructor <;> linarith
  · constructor <;> linarith

lemma clampMag_id (m b : ℚ) (h1 : -b ≤ m) (h2 : m ≤ b) : clampMag m b = m := by
  unfold clampMag
  split_ifs with g1 g2
  · linarith
  · linarith
  · rfl

lemma secant_nonneg (x y : ℕ → ℚ) (i : ℕ) (hxi : x i < x (i + 1)) (hyi : y i ≤ y (i + 1)) :
    0 ≤ secant x y i :=
  div_nonneg (by linarith) (by linarith)

/-- Under increasing x and nondecreasing y, the left tangent of interval `i`
lies in the Hyman box `[0, 3 * secant i]`. -/
lemma tangent_left_bounds (x y : ℕ → ℚ) (n : ℕ)
    (hx : ∀ i, i < n → x i < x (i + 1)) (hy : ∀ i, i < n → y i ≤ y (i + 1))
    (i : ℕ) (hi : i < n) :
    0 ≤ tangent x y n i ∧ tangent x y n i ≤ 3 * secant x y i := by
  have hdi : 0 ≤ secant x y i := secant_nonneg x y i (hx i hi) (hy i hi)
  rcases Nat.eq_zero_or_pos i with rfl | hpos
  · have habs : |secant x y 0| = secant x y 0 := abs_of_nonneg hdi
    have hid : tangent x y n 0 = secant x y 0 := by
      unfold tangent
      rw [if_pos rfl, habs]
      exact clampMag_id _ _ (by linarith) (by linarith)
    rw [hid]
    exact ⟨hdi, by linarith⟩
  · have hine : i ≠ 0 := Nat.pos_iff_ne_zero.mp hpos
    have hinn : i ≠ n := Nat.ne_of_lt hi
    obtain ⟨j, rfl⟩ : ∃ j, i = j + 1 := ⟨i - 1, (Nat.succ_pred_eq_of_pos hpos).symm⟩
    have hjlt : j < n := lt_trans (Nat.lt_succ_self j) hi
    have hdj : 0 ≤ secant x y j := secant_nonneg x y j (hx j hjlt) (hy j hjlt)
    have hprod : ¬ (secant x y (j + 1 - 1) * secant x y (j + 1) < 0) := by
      simp only [Nat.add_sub_cancel]
      exact not_lt.mpr (mul_nonneg hdj hdi)
    have hmin0 : (0:ℚ) ≤ 3 * min |secant x y (j + 1 - 1)| |secant x y (j + 1)| := by
      positivity
    have havg : (0:ℚ) ≤ (secant x y (j + 1 - 1) + secant x y (j + 1)) / 2 := by
      simp only [Nat.add_sub_cancel]
      linarith
    have h := clampMag_nonneg_le _ _ havg hmin0
    unfold tangent
    rw [if_neg hine, if_neg hinn, if_neg hprod]
    refine ⟨h.1, le_trans h.2 ?_⟩
    have : min |secant x y (j + 1 - 1)| |secant x y (j + 1)| ≤ secant x y (j + 1) := by
      refine le_trans (min_le_right _ _) ?_
      rw [abs_of_nonneg hdi]
    linarith

/-- Under increasing x and nondecreasing y, the right tangent of interval `i`
lies in the Hyman box `[0, 3 * secant i]`. -/
lemma tangent_right_bounds (x y : ℕ → ℚ) (n : ℕ)
    (hx : ∀ i, i < n → x i < x (i + 1)) (hy : ∀ i, i < n → y i ≤ y (i + 1))
    (i : ℕ) (hi : i < n) :
    0 ≤ tangent x y n (i + 1) ∧ tangent x y n (i + 1) ≤ 3 * secant x y i := by
  have hdi : 0 ≤ secant x y i := secant_nonneg x y i (hx i hi) (hy i hi)
  have hne0 : i + 1 ≠ 0 := Nat.succ_ne_zero i
  rcases eq_or_lt_of_le (Nat.succ_le_of_lt hi) with heq | hlt
  · have hn1 : n - 1 = i := by omega
    have hid : tangent x y n (i + 1) = secant x y i := by
      unfold tangent
      rw [if_neg hne0, if_pos heq, hn1, abs_of_nonneg hdi]
      exact clampMag_id _ _ (by linarith) (by linarith)
    rw [hid]
    exact ⟨hdi, by linarith⟩
  · have hinn : i + 1 ≠ n := Nat.ne_of_lt hlt
    have hdi1 : 0 ≤ secant x y (i + 1) := secant_nonneg x y (i + 1) (hx _ hlt) (hy _ hlt)
    have hprod : ¬ (secant x y (i + 1 - 1) * secant x y (i + 1) < 0) := by
      simp only [Nat.add_sub_cancel]
      exact not_lt.mpr (mul_nonneg hdi hdi1)
    have hmin0 : (0:ℚ) ≤ 3 * min |secant x y (i + 1 - 1)| |secant x y (i + 1)| := by
      positivity
    have havg : (0:ℚ) ≤ (secant x y (i + 1 - 1) + secant x y (i + 1)) / 2 := by
      simp only [Nat.add_sub_cancel]
      linarith
    have h := clampMag_nonneg_le _ _ havg hmin0
    unfold tangent
    rw [if_neg hne0, if_neg hinn, if_neg hprod]
    refine ⟨h.1, le_trans h.2 ?_⟩
    have : min |secant x y (i + 1 - 1)| |secant x y (i + 1)| ≤ secant x y i := by
      simp only [Nat.add_sub_cancel]
      refine le_trans (min_le_left _ _) ?_
      rw [abs_of_nonneg hdi]
    linarith

/-- Monotonicity of the Hermite evaluation within one control interval. -/
lemma evalAt_mono (x y : ℕ → ℚ) (n : ℕ)
    (hx : ∀ i, i < n → x i < x (i + 1)) (hy : ∀ i, i < n → y i ≤ y (i + 1))
    (i : ℕ) (hi : i < n) (q q' : ℚ)
    (h1 : x i ≤ q) (h2 : q ≤ q') (h3 : q' ≤ x (i + 1)) :
    evalAt x y n i q ≤ evalAt x y n i q' := by
  have hh : 0 < x (i + 1) - x i := by linarith [hx i hi]
  have hhne : x (i + 1) - x i ≠ 0 := ne_of_gt hh
  have hL := tangent_left_bounds x y n hx hy i hi
  have hR := tangent_right_bounds x y n hx hy i hi
  have hcancel : (x (i + 1) - x i) * (3 * ((y (i + 1) - y i) / (x (i + 1) - x i))) =
      3 * (y (i + 1) - y i) := by
    field_simp
  apply hermiteVal_mono
  · exact hy i hi
  · exact mul_nonneg hh.le hL.1
  · have := mul_le_mul_of_nonneg_left hL.2 hh.le
    unfold secant at this
    linarith [hcancel]
  · exact mul_nonneg hh.le hR.1
  · have := mul_le_mul_of_nonneg_left hR.2 hh.le
    unfold secant at this
    linarith [hcancel]
  · exact div_nonneg (by linarith) hh.le
  · exact div_le_div_of_nonneg_right (by linarith) hh.le
  · rw [div_le_one hh]
    linarith

lemma evalAt_left (x y : ℕ → ℚ) (n i : ℕ) : evalAt x y n i (x i) = y i := by
  unfold evalAt hermiteVal
  rw [sub_self, zero_div]
  ring

lemma evalAt_right (x y : ℕ → ℚ) (n i : ℕ) (h : x i < x (i + 1)) :
    evalAt x y n i (x (i + 1)) = y (i + 1) := by
  unfold evalAt hermiteVal
  rw [div_self (by linarith : x (i + 1) - x i ≠ 0)]
  ring

lemma locate_le (x : ℕ → ℚ) : ∀ (n : ℕ) (q : ℚ), locate x n q ≤ n := by
  intro n
  induction n with
  | zero => intro q; exact le_refl 0
  | succ m ih =>
    intro q
    unfold locate
    split_ifs
    · exact Nat.le_succ m
    · exact le_trans (ih q) (Nat.le_succ m)

lemma locate_lt (x : ℕ → ℚ) : ∀ (n : ℕ), 0 < n → ∀ q, locate x n q < n := by
  intro n
  induction n with
  | zero => intro h; exact absurd h (lt_irrefl 0)
  | succ m ih =>
    intro _ q
    unfold locate
    split_ifs
    · exact Nat.lt_succ_self m
    · rcases Nat.eq_zero_or_pos m with rfl | hm
      · simp [locate]
      · exact lt_trans (ih hm q) (Nat.lt_succ_self m)

lemma locate_self_le (x : ℕ → ℚ) (q : ℚ) (hq : x 0 ≤ q) :
    ∀ n, x (locate x n q) ≤ q := by
  intro n
  induction n with
  | zero => exact hq
  | succ m ih =>
    unfold locate
    split_ifs with h
    · exact h
    · exact ih

lemma locate_succ_ge (x : ℕ → ℚ) (n : ℕ) (hn : 0 < n)
    (hx : ∀ i, i < n → x i < x (i + 1)) (q : ℚ) :
    ∀ m, m ≤ n → q ≤ x m → q ≤ x (locate x m q + 1) := by
  intro m
  induction m with
  | zero =>
    intro _ hq
    exact le_trans hq (le_of_lt (hx 0 hn))
  | succ k ih =>
    intro hkn hq
    unfold locate
    split_ifs with h
    · exact hq
    · exact ih (le_trans (Nat.le_succ k) hkn) (le_of_lt (not_le.mp h))

lemma locate_mono (x : ℕ → ℚ) (q q' : ℚ) (hqq : q ≤ q') :
    ∀ n, locate x n q ≤ locate x n q' := by
  intro n
  induction n with
  | zero => exact le_refl 0
  | succ m ih =>
    unfold locate
    split_ifs with h1 h2
    · exact le_refl m
    · exact absurd (le_trans h1 hqq) h2
    · exact le_trans (locate_le x m q) (le_refl m)
    · exact ih

lemma nondecreasing_chain (y : ℕ → ℚ) (n : ℕ) (hy : ∀ i, i < n → y i ≤ y (i + 1)) :
    ∀ j k, j ≤ k → k ≤ n → y j ≤ y k := by
  intro j k hjk hkn
  induction k, hjk using Nat.le_induction with
  | base => exact le_refl _
  | succ k hjk ih =>
    exact le_trans (ih (by omega)) (hy k (by omega))

/-- Global monotonicity of value-mode spline evaluation over the domain,
for increasing control x and nondecreasing control y. -/
theorem splineEval_mono (x y : ℕ → ℚ) (n : ℕ) (hn : 0 < n)
    (hx : ∀ i, i < n → x i < x (i + 1)) (hy : ∀ i, i < n → y i ≤ y (i + 1))
    (q q' : ℚ) (h0 : x 0 ≤ q) (hqq : q ≤ q') (h1 : q' ≤ x n) :
    splineEval x y n q ≤ splineEval x y n q' := by
  have hi : locate x n q < n := locate_lt x n hn q
  have hi' : locate x n q' < n := locate_lt x n hn q'
  have hii : locate x n q ≤ locate x n q' := locate_mono x q q' hqq n
  have hxi : x (locate x n q) ≤ q := locate_self_le x q h0 n
  have hxi' : x (locate x n q') ≤ q' := locate_self_le x q' (le_trans h0 hqq) n
  have hqsucc : q ≤ x (locate x n q + 1) :=
    locate_succ_ge x n hn hx q n (le_refl n) (le_trans hqq h1)
  have hq'succ : q' ≤ x (locate x n q' + 1) :=
    locate_succ_ge x n hn hx q' n (le_refl n) h1
  rcases eq_or_lt_of_le hii with heq | hlt
  · unfold splineEval
    rw [← heq]
    exact evalAt_mono x y n hx hy (locate x n q) hi q q' hxi hqq (heq ▸ hq'succ)
  · unfold splineEval
    calc evalAt x y n (locate x n q) q
        ≤ evalAt x y n (locate x n q) (x (locate x n q + 1)) :=
          evalAt_mono x y n hx hy (locate x n q) hi q (x (locate x n q + 1))
            hxi hqsucc (le_refl _)
      _ = y (locate x n q + 1) := evalAt_right x y n (locate x n q) (hx _ hi)
      _ ≤ y (locate x n q') :=
          nondecreasing_chain y n hy (locate x n q + 1) (locate x n q') hlt (le_of_lt hi')
      _ = evalAt x y n (locate x n q') (x (locate x n q')) :=
          (evalAt_left x y n (locate x n q')).symm
      _ ≤ evalAt x y n (locate x n q') q' :=
          evalAt_mono x y n hx hy (locate x n q') hi' (x (locate x n q')) q'
            (le_refl _) hxi' hq'succ

/-- One point of `np.linspace lo hi K`: `lo + k * (hi - lo) / (K - 1)`.
With `K = 1` the quotient degenerates to 0 and the single point is `lo`,
matching numpy. -/
def gridPt (lo hi : ℚ) (K : ℕ) (k : ℕ) : ℚ := lo + k * ((hi - lo) / ((K : ℚ) - 1))

/-- The list `np.linspace lo hi K` of `K` evenly spaced points. -/
def linspaceList (lo hi : ℚ) (K : ℕ) : List ℚ := (List.range K).map (gridPt lo hi K)

/-- Python `min` over a list (0 for an empty list, which Python would reject;
never applied to an empty list below). -/
def pyMin : List ℚ → ℚ
  | [] => 0
  | a :: l => l.foldl min a

/-- Python `max` over a list. -/
def pyMax : List ℚ → ℚ
  | [] => 0
  | a :: l => l.foldl max a

/-- One iteration of the CDF construction loop of `hyman_meanpres_spline`:
`py[i+1] = py[i] + ts[i]*(px[i+1]-px[i])`. -/
def cdfStep (ts pxl : List ℚ) (py : List ℚ) (i : ℕ) : List ℚ :=
  py.set (i + 1) (py.getD i 0 + ts.getD i 0 * (pxl.getD (i + 1) 0 - pxl.getD i 0))

/-- The CDF construction loop run for the first `m` rates, starting from
`py = [0]*len(px)`. -/
def buildUpTo (ts pxl : List ℚ) (m : ℕ) : List ℚ :=
  (List.range m).foldl (cdfStep ts pxl) (List.replicate pxl.length 0)

/-- The cumulative curve `py` built from a rate series, as in the
`if cdf==None` branch of `hyman_meanpres_spline`. -/
def buildPy (ts pxl : List ℚ) : List ℚ := buildUpTo ts pxl ts.length

/-- The prefix-summation recurrence `y[0] = 0`, `y[i+1] = y[i] + ts[i]*(px[i+1]-px[i])`. -/
def cumFromRates (ts pxl : ℕ → ℚ) : ℕ → ℚ
  | 0 => 0
  | i + 1 => cumFromRates ts pxl i + ts i * (pxl (i + 1) - pxl i)

/-- Resolution of the x-positions (`if px==None` block of
`hyman_meanpres_spline` in `mean_pres_splines.py`): an explicit `px` is used
as is; otherwise `np.linspace(0, len(ts), len(ts)+1)` from the rate series,
or `np.linspace(0, len(cdf), len(cdf)+1)` from the cumulative curve; with
neither input the function prints an error and executes a bare `raise`. -/
def resolvePx (ts cdf px : Option (List ℚ)) : Except PyErr (List ℚ) :=
  match px with
  | some p => Except.ok p
  | none =>
    match ts with
    | some t => Except.ok (linspaceList 0 t.length (t.length + 1))
    | none =>
      match cdf with
      | some c => Except.ok (linspaceList 0 c.length (c.length + 1))
      | none => Except.error PyErr.nothingPassed

/-- Resolution of the y-values (`if cdf==None` block): a supplied cumulative
curve is used as is; otherwise the curve is built from the rate series by the
prefix-summation loop (an ill-matched `px` length raises an IndexError in
Python; with no rate series either, `len(None)` raises a TypeError). -/
def resolvePy (ts cdf : Option (List ℚ)) (pxl : List ℚ) : Except PyErr (List ℚ) :=
  match cdf with
  | some c => Except.ok c
  | none =>
    match ts with
    | some t =>
      if pxl.length = t.length + 1 then Except.ok (buildPy t pxl)
      else Except.error PyErr.indexError
    | none => Except.error PyErr.typeErrorNone

/-- Modelled from the spec: the fit-and-evaluate stage delegated by the
Python code to the external R runtime (`splinefun(method=hyman)` followed by
evaluation over `np.linspace(min(px), max(px), xnum)`).  The R fit rejects
mismatched x/y lengths, and fewer than 2 points or non-increasing x
(spec 4.2 requires a well-formed ControlPointSet); `np.linspace` rejects a
negative sample count.  Evaluation follows spec 4.3, in value or first
derivative mode. -/
def fitAndEval (pxl pyl : List ℚ) (xnum : ℤ) (deriv : Bool) :
    Except PyErr (List ℚ × List ℚ) :=
  if pxl.length = pyl.length then
    if 2 ≤ pxl.length ∧ List.Chain' (· < ·) pxl then
      if 0 ≤ xnum then
        Except.ok (linspaceList (pyMin pxl) (pyMax pxl) xnum.toNat,
          (linspaceList (pyMin pxl) (pyMax pxl) xnum.toNat).map (fun q =>
            if deriv then
              splineEvalD (fun i => pxl.getD i 0) (fun i => pyl.getD i 0) (pxl.length - 1) q
            else
              splineEval (fun i => pxl.getD i 0) (fun i => pyl.getD i 0) (pxl.length - 1) q))
      else Except.error PyErr.valueError
    else Except.error PyErr.degenerateControl
  else Except.error PyErr.lengthMismatch

/-- Translation of `hyman_meanpres_spline` from `mean_pres_splines.py`:
resolve x-positions, resolve y-values, then fit and evaluate, in derivative
mode exactly when the rate-series argument was supplied (`if ts!=None`). -/
def hyman_meanpres_spline (ts cdf px : Option (List ℚ)) (xnum : ℤ) :
    Except PyErr (List ℚ × List ℚ) :=
  match resolvePx ts cdf px with
  | Except.error e => Except.error e
  | Except.ok pxl =>
    match resolvePy ts cdf pxl with
    | Except.error e => Except.error e
    | Except.ok pyl => fitAndEval pxl pyl xnum ts.isSome

/-- Translation of the `math_functions.py` variant of the same function: the
only difference is that when neither a rate series nor a cumulative curve is
supplied (and no positions), it executes a bare `return`, so the caller
receives `None` instead of a raised exception. -/
def hyman_meanpres_spline_mf (ts icdf px : Option (List ℚ)) (xnum : ℤ) :
    Except PyErr (Option (List ℚ × List ℚ)) :=
  match ts, icdf, px with
  | none, none, none => Except.ok none
  | _, _, _ => (hyman_meanpres_spline ts icdf px xnum).map some

/-- Predicate: the computation returned normally (did not raise). -/
def exceptOk {α : Type} (e : Except PyErr α) : Bool :=
  match e with
  | Except.ok _ => true
  | Except.error _ => false

/-- Python `int()` on a float: truncation toward zero. -/
def pyInt (q : ℚ) : ℤ := if q < 0 then -Int.floor (-q) else Int.floor q

/-- Python `round()` to an integer: nearest, ties to even. -/
def pyRound (q : ℚ) : ℤ :=
  if q - Int.floor q < 1 / 2 then Int.floor q
  else if (1 : ℚ) / 2 < q - Int.floor q then Int.floor q + 1
  else if 2 ∣ Int.floor q then Int.floor q else Int.floor q + 1

/-- Python list indexing `l[i]`: negative indices wrap from the end; out of
range raises IndexError. -/
def pyIndexList (l : List ℚ) (i : ℤ) : Except PyErr ℚ :=
  let j := if i < 0 then i + l.length else i
  if 0 ≤ j ∧ j < (l.length : ℤ) then Except.ok (l.getD j.toNat 0)
  else Except.error PyErr.indexError

/-- The index mapping of `spline_fx`: `int((qval-1)*(lower/inc))`, where
`lower` is the variable assigned `qs[-1]` and `inc` the increment already
divided by 100. -/
def idxMap (lower inc qval : ℚ) : ℤ := pyInt ((qval - 1) * (lower / inc))

/-- Modelled from the spec: the index-mapping formula of spec 4.4 step 5,
`index = round((level - lower_bound) / increment)`. -/
def specIndex (level lower_bound increment : ℚ) : ℤ :=
  round ((level - lower_bound) / increment)

/-- The canonical quantile grid assigned to `qs` in the body of `spline_fx`:
`[0.01, 0.025, 0.05, 0.1, 0.25, 0.5, 0.75, 0.9, 0.95, 0.975, 0.99]`. -/
def qsCanonical : List ℚ :=
  [1/100, 1/40, 1/20, 1/10, 1/4, 1/2, 3/4, 9/10, 19/20, 39/40, 99/100]

/-- The body of `spline_fx` below the reads of `qs`, parameterized by the
value `qs` would hold: `upper = qs[0]`, `lower = qs[-1]` (note the swap:
`qs[0]` is the grid minimum), `xnum = (upper-lower)/inc + 1`, index list from
`idxMap`, then one spline fit/evaluation per row of the table, rounding the
values picked at the computed indices.  `inc` is already divided by 100. -/
def spline_fx_rest (qs qvals : List ℚ) (raw_cdf : List (List ℚ)) (inc : ℚ) :
    Except PyErr (List (List ℚ)) :=
  let upper := qs.headD 0
  let lower := qs.getLast?.getD 0
  let xnum := (upper - lower) / inc + 1
  let idx := qvals.map (idxMap lower inc)
  raw_cdf.mapM (fun row =>
    match hyman_meanpres_spline none (some row) (some qs) (pyInt xnum) with
    | Except.error e => Except.error e
    | Except.ok xy =>
      idx.mapM (fun i =>
        match pyIndexList xy.2 i with
        | Except.error e => Except.error e
        | Except.ok v => Except.ok ((pyRound v : ℤ) : ℚ)))

/-- Translation of `spline_fx` from `mean_pres_splines.py`.  In Python, `qs`
is a function-local variable (assigned only further down the body), so the
reads `upper = qs[0]` and `lower = qs[-1]` at the top of the body raise
UnboundLocalError (a NameError) on every call, before any row is touched.
The unassigned local is modelled by an `Option` that is still `none` at the
read. -/
def spline_fx (qvals : List ℚ) (raw_cdf : List (List ℚ)) (inc : ℚ) :
    Except PyErr (List (List ℚ)) :=
  let inc2 := inc / 100
  let qs : Option (List ℚ) := none
  match qs with
  | none => Except.error PyErr.unboundLocalQs
  | some qsv => spline_fx_rest qsv qvals raw_cdf inc2

/-- Counterfactual variant of `spline_fx` in which the assignment
`qs = [0.01, ..., 0.99]` is hoisted above its first read, so the body
actually runs.  Used to state what the rest of the body does. -/
def spline_fx_qsBound (qvals : List ℚ) (raw_cdf : List (List ℚ)) (inc : ℚ) :
    Except PyErr (List (List ℚ)) :=
  spline_fx_rest qsCanonical qvals raw_cdf (inc / 100)

/-- Python `zip(*lists)` truncated transposition, unrolled to `n` tuples. -/
def pyZipAux : ℕ → List (List ℚ) → List (List ℚ)
  | 0, _ => []
  | n + 1, ls => ls.map (fun l => l.headD 0) :: pyZipAux n (ls.map List.tail)

/-- Length of the shortest list: the number of tuples `zip(*lists)` yields. -/
def minLen : List (List ℚ) → ℕ
  | [] => 0
  | l :: ls => ls.foldl (fun m t => min m t.length) l.length

/-- Python `functools.reduce(operator.mul, data)` on a nonempty tuple (its
only use below; `reduce` on an empty tuple would raise). -/
def pyReduceMul (l : List ℚ) : ℚ :=
  match l with
  | [] => 0
  | a :: t => t.foldl (· * ·) a

/-- Translation of `sumproduct` from `math_functions.py`:
`sum(functools.reduce(operator.mul, data) for data in zip(*lists))`.
Python `zip` silently truncates to the shortest input, so no length check
ever happens. -/
def sumproduct (ls : List (List ℚ)) : ℚ :=
  ((pyZipAux (minLen ls) ls).map pyReduceMul).sum

lemma getD_replicate_zero (n k : ℕ) : (List.replicate n (0:ℚ)).getD k 0 = 0 := by
  rw [List.getD_eq_getElem?_getD, List.getElem?_replicate]
  split_ifs <;> rfl

lemma getD_set_self (l : List ℚ) (i : ℕ) (v : ℚ) (h : i < l.length) :
    (l.set i v).getD i 0 = v := by
  rw [List.getD_eq_getElem?_getD, List.getElem?_set, if_pos rfl, if_pos h]
  rfl

lemma getD_set_ne (l : List ℚ) (i j : ℕ) (v : ℚ) (h : i ≠ j) :
    (l.set i v).getD j 0 = l.getD j 0 := by
  rw [List.getD_eq_getElem?_getD, List.getElem?_set, if_neg h, ← List.getD_eq_getElem?_getD]

lemma buildUpTo_succ (ts pxl : List ℚ) (m : ℕ) :
    buildUpTo ts pxl (m + 1) = cdfStep ts pxl (buildUpTo ts pxl m) m := by
  unfold buildUpTo
  rw [List.range_succ, List.foldl_append]
  rfl

lemma buildUpTo_length (ts pxl : List ℚ) (m : ℕ) :
    (buildUpTo ts pxl m).length = pxl.length := by
  induction m with
  | zero => simp [buildUpTo, List.range_zero]
  | succ k ih =>
    rw [buildUpTo_succ]
    unfold cdfStep
    rw [List.length_set]
    exact ih

/-- State of the CDF construction loop after `m` iterations: entries up to
`m` hold the prefix sums, later entries are still 0. -/
lemma buildUpTo_getD (ts pxl : List ℚ) (hlen : pxl.length = ts.length + 1) :
    ∀ m, m ≤ ts.length → ∀ k, k < pxl.length →
      (buildUpTo ts pxl m).getD k 0 =
        if k ≤ m then cumFromRates (fun i => ts.getD i 0) (fun i => pxl.getD i 0) k
        else 0 := by
  intro m
  induction m with
  | zero =>
    intro _ k _
    have hrep : buildUpTo ts pxl 0 = List.replicate pxl.length 0 := rfl
    rw [hrep, getD_replicate_zero]
    rcases Nat.eq_zero_or_pos k with rfl | hkpos
    · simp [cumFromRates]
    · rw [if_neg (by omega)]
  | succ j ih =>
    intro hm k hk
    rw [buildUpTo_succ]
    unfold cdfStep
    by_cases hkj : k = j + 1
    · subst hkj
      rw [getD_set_self _ _ _ (by rw [buildUpTo_length]; omega)]
      rw [ih (by omega) j (by omega), if_pos (le_refl j), if_pos (le_refl (j + 1))]
      simp [cumFromRates]
    · rw [getD_set_ne _ _ _ _ (fun h => hkj h.symm)]
      rw [ih (by omega) k hk]
      by_cases hkle : k ≤ j
      · rw [if_pos hkle, if_pos (by omega)]
      · rw [if_neg hkle, if_neg (by omega)]

lemma cumFromRates_eq_sum (ts pxl : ℕ → ℚ) :
    ∀ k, cumFromRates ts pxl k = ∑ i in Finset.range k, ts i * (pxl (i + 1) - pxl i) := by
  intro k
  induction k with
  | zero => simp [cumFromRates]
  | succ j ih =>
    rw [Finset.sum_range_succ, ← ih]
    rfl

/-- Claim C1: for a rate series `ts` of length `N` and strictly increasing
positions `px` of length `N+1`, the cumulative curve built by the loop of
`hyman_meanpres_spline` satisfies `y[0] = 0` and
`y[i+1] = y[i] + ts[i]*(px[i+1]-px[i])`, and its final value `y[N]` equals
the weighted total `sum ts[i]*(px[i+1]-px[i])` exactly. -/
theorem C1_mean_preservation (ts pxl : List ℚ) (N : ℕ)
    (hts : ts.length = N) (hpx : pxl.length = N + 1)
    (_hmono : List.Chain' (· < ·) pxl) :
    (buildPy ts pxl).getD 0 0 = 0 ∧
    (∀ i, i < N → (buildPy ts pxl).getD (i + 1) 0 =
      (buildPy ts pxl).getD i 0 + ts.getD i 0 * (pxl.getD (i + 1) 0 - pxl.getD i 0)) ∧
    (buildPy ts pxl).getD N 0 =
      ∑ i in Finset.range N, ts.getD i 0 * (pxl.getD (i + 1) 0 - pxl.getD i 0) := by
  have hlen : pxl.length = ts.length + 1 := by omega
  have hkey := buildUpTo_getD ts pxl hlen ts.length (le_refl _)
  have hbp : buildPy ts pxl = buildUpTo ts pxl ts.length := rfl
  refine ⟨?_, ?_, ?_⟩
  · rw [hbp, hkey 0 (by omega), if_pos (by omega)]
    rfl
  · intro i hi
    rw [hbp, hkey (i + 1) (by omega), hkey i (by omega),
      if_pos (by omega), if_pos (by omega)]
    rfl
  · rw [hbp, hkey N (by omega), if_pos (by omega), cumFromRates_eq_sum]

/-- Witness for C1 at the spec's first example scenario:
`ts = [1,2,3,4]`, unit intervals, cumulative curve `[0,1,3,6,10]`. -/
theorem C1_mean_preservation_witness :
    List.Chain' (· < ·) ([0, 1, 2, 3, 4] : List ℚ) ∧
    (buildPy [1, 2, 3, 4] [0, 1, 2, 3, 4]).getD 4 0 =
      ∑ i in Finset.range 4,
        ([1, 2, 3, 4] : List ℚ).getD i 0 *
          (([0, 1, 2, 3, 4] : List ℚ).getD (i + 1) 0 -
            ([0, 1, 2, 3, 4] : List ℚ).getD i 0) :=
  ⟨by norm_num [List.chain'_cons],
    (C1_mean_preservation [1, 2, 3, 4] [0, 1, 2, 3, 4] 4 rfl rfl
      (by norm_num [List.chain'_cons])).2.2⟩

lemma foldl_min_of_forall_le (a : ℚ) (l : List ℚ) (h : ∀ b ∈ l, a ≤ b) :
    l.foldl min a = a := by
  induction l generalizing a with
  | nil => rfl
  | cons b t ih =>
    simp only [List.foldl_cons]
    rw [min_eq_left (h b (List.mem_cons_self b t))]
    exact ih a (fun c hc => h c (List.mem_cons_of_mem b hc))

lemma pyMin_sorted (l : List ℚ) (h : List.Chain' (· < ·) l) (hne : l ≠ []) :
    pyMin l = l.getD 0 0 := by
  cases l with
  | nil => exact absurd rfl hne
  | cons a t =>
    have hp := List.chain'_iff_pairwise.mp h
    have hall : ∀ b ∈ t, a ≤ b := fun b hb =>
      le_of_lt ((List.pairwise_cons.mp hp).1 b hb)
    simp only [pyMin, List.getD_cons_zero]
    exact foldl_min_of_forall_le a t hall

lemma foldl_max_last (a : ℚ) (t : List ℚ) (h : List.Chain' (· < ·) (a :: t)) :
    t.foldl max a = (a :: t).getD ((a :: t).length - 1) 0 := by
  induction t generalizing a with
  | nil => rfl
  | cons b t' ih =>
    obtain ⟨hab, htail⟩ := List.chain'_cons.mp h
    simp only [List.foldl_cons]
    rw [max_eq_right hab.le]
    have hstep : (a :: b :: t').getD ((a :: b :: t').length - 1) 0 =
        (b :: t').getD ((b :: t').length - 1) 0 := by
      simp [List.getD_cons_succ]
    rw [hstep]
    exact ih b htail

lemma pyMax_sorted (l : List ℚ) (h : List.Chain' (· < ·) l) (hne : l ≠ []) :
    pyMax l = l.getD (l.length - 1) 0 := by
  cases l with
  | nil => exact absurd rfl hne
  | cons a t => exact foldl_max_last a t h

lemma chain_lt_getD (l : List ℚ) (h : List.Chain' (· < ·) l) :
    ∀ i, i + 1 < l.length → l.getD i 0 < l.getD (i + 1) 0 := by
  intro i hi
  have hg := (List.chain'_iff_get.mp h) i (by omega)
  simp only [List.get_eq_getElem] at hg
  rwa [List.getD_eq_getElem l 0 (by omega), List.getD_eq_getElem l 0 hi]

lemma chain_le_getD (l : List ℚ) (h : List.Chain' (· ≤ ·) l) :
    ∀ i, i + 1 < l.length → l.getD i 0 ≤ l.getD (i + 1) 0 := by
  intro i hi
  have hg := (List.chain'_iff_get.mp h) i (by omega)
  simp only [List.get_eq_getElem] at hg
  rwa [List.getD_eq_getElem l 0 (by omega), List.getD_eq_getElem l 0 hi]

lemma hyman_cdf_red (cdf pxl : List ℚ) (xnum : ℤ) :
    hyman_meanpres_spline none (some cdf) (some pxl) xnum =
      fitAndEval pxl cdf xnum false := rfl

lemma hyman_both_red (ts cdf pxl : List ℚ) (xnum : ℤ) :
    hyman_meanpres_spline (some ts) (some cdf) (some pxl) xnum =
      fitAndEval pxl cdf xnum true := rfl

lemma fitAndEval_pos_false (pxl pyl : List ℚ) (xnum : ℤ)
    (h1 : pxl.length = pyl.length) (h2 : 2 ≤ pxl.length)
    (h3 : List.Chain' (· < ·) pxl) (h4 : 0 ≤ xnum) :
    fitAndEval pxl pyl xnum false =
      Except.ok (linspaceList (pyMin pxl) (pyMax pxl) xnum.toNat,
        (linspaceList (pyMin pxl) (pyMax pxl) xnum.toNat).map
          (splineEval (fun i => pxl.getD i 0) (fun i => pyl.getD i 0)
            (pxl.length - 1))) := by
  unfold fitAndEval
  rw [if_pos h1, if_pos (And.intro h2 h3), if_pos h4]
  simp

lemma fitAndEval_pos_true (pxl pyl : List ℚ) (xnum : ℤ)
    (h1 : pxl.length = pyl.length) (h2 : 2 ≤ pxl.length)
    (h3 : List.Chain' (· < ·) pxl) (h4 : 0 ≤ xnum) :
    fitAndEval pxl pyl xnum true =
      Except.ok (linspaceList (pyMin pxl) (pyMax pxl) xnum.toNat,
        (linspaceList (pyMin pxl) (pyMax pxl) xnum.toNat).map
          (splineEvalD (fun i => pxl.getD i 0) (fun i => pyl.getD i 0)
            (pxl.length - 1))) := by
  unfold fitAndEval
  rw [if_pos h1, if_pos (And.intro h2 h3), if_pos h4]
  simp

/-- Inversion of a successful cdf-mode call of `hyman_meanpres_spline` with
explicit positions: the fit conditions held and the outputs are the fine grid
and its value-mode evaluations. -/
lemma hyman_cdf_ok_inv (cdf pxl : List ℚ) (xnum : ℤ) (xs ys : List ℚ)
    (hok : hyman_meanpres_spline none (some cdf) (some pxl) xnum =
      Except.ok (xs, ys)) :
    pxl.length = cdf.length ∧ 2 ≤ pxl.length ∧ List.Chain' (· < ·) pxl ∧
    0 ≤ xnum ∧
    xs = linspaceList (pyMin pxl) (pyMax pxl) xnum.toNat ∧
    ys = xs.map (splineEval (fun i => pxl.getD i 0) (fun i => cdf.getD i 0)
      (pxl.length - 1)) := by
  rw [hyman_cdf_red] at hok
  by_cases h1 : pxl.length = cdf.length
  swap
  · unfold fitAndEval at hok
    rw [if_neg h1] at hok
    exact Except.noConfusion hok
  by_cases h2 : 2 ≤ pxl.length ∧ List.Chain' (· < ·) pxl
  swap
  · unfold fitAndEval at hok
    rw [if_pos h1, if_neg h2] at hok
    exact Except.noConfusion hok
  by_cases h4 : 0 ≤ xnum
  swap
  · unfold fitAndEval at hok
    rw [if_pos h1, if_pos h2, if_neg h4] at hok
    exact Except.noConfusion hok
  rw [fitAndEval_pos_false pxl cdf xnum h1 h2.1 h2.2 h4] at hok
  simp only [Except.ok.injEq, Prod.mk.injEq] at hok
  obtain ⟨hxs, hys⟩ := hok
  refine ⟨h1, h2.1, h2.2, h4, hxs.symm, ?_⟩
  rw [← hxs]
  exact hys.symm

/-- Claim C2: for a CDF-mode control point set with nondecreasing values
(and strictly increasing positions, as enforced by the fit), the fine-grid
evaluation output of `hyman_meanpres_spline` is nondecreasing end to end. -/
theorem C2_cdf_monotone (cdf pxl : List ℚ) (xnum : ℤ) (xs ys : List ℚ)
    (hcdf : List.Chain' (· ≤ ·) cdf)
    (hok : hyman_meanpres_spline none (some cdf) (some pxl) xnum =
      Except.ok (xs, ys)) :
    List.Chain' (· ≤ ·) ys := by
  obtain ⟨h1, h2, h3, h4, hxs, hys⟩ := hyman_cdf_ok_inv cdf pxl xnum xs ys hok
  subst hys
  subst hxs
  rw [linspaceList, List.map_map, List.chain'_map]
  cases hKn : xnum.toNat with
  | zero => simp
  | succ K' =>
    rw [List.chain'_range_succ]
    intro m hm
    have hne : pxl ≠ [] := by
      intro hnil
      rw [hnil] at h2
      simp at h2
    have hlo : pyMin pxl = pxl.getD 0 0 := pyMin_sorted pxl h3 hne
    have hhi : pyMax pxl = pxl.getD (pxl.length - 1) 0 := pyMax_sorted pxl h3 hne
    have hn : 0 < pxl.length - 1 := by omega
    have hx : ∀ i, i < pxl.length - 1 →
        pxl.getD i 0 < pxl.getD (i + 1) 0 := fun i hi =>
      chain_lt_getD pxl h3 i (by omega)
    have hy : ∀ i, i < pxl.length - 1 →
        cdf.getD i 0 ≤ cdf.getD (i + 1) 0 := fun i hi =>
      chain_le_getD cdf hcdf i (by omega)
    have hx0n : pxl.getD 0 0 ≤ pxl.getD (pxl.length - 1) 0 :=
      nondecreasing_chain (fun i => pxl.getD i 0) (pxl.length - 1)
        (fun i hi => (hx i hi).le) 0 (pxl.length - 1) (by omega) (le_refl _)
    have hden : ((K' + 1 : ℕ) : ℚ) - 1 = (K' : ℚ) := by push_cast; ring
    have hK1 : (1 : ℚ) ≤ (K' : ℚ) := by exact_mod_cast (by omega : 1 ≤ K')
    have hKne : (K' : ℚ) ≠ 0 := by linarith
    have hstep : 0 ≤ (pyMax pxl - pyMin pxl) / ((K' : ℚ)) := by
      apply div_nonneg
      · rw [hlo, hhi]; linarith
      · linarith
    have hgrid : ∀ k : ℕ, gridPt (pyMin pxl) (pyMax pxl) (K' + 1) k =
        pyMin pxl + (k : ℚ) * ((pyMax pxl - pyMin pxl) / (K' : ℚ)) := by
      intro k
      unfold gridPt
      rw [hden]
    have hin : ∀ k : ℕ, k ≤ K' →
        pxl.getD 0 0 ≤ gridPt (pyMin pxl) (pyMax pxl) (K' + 1) k ∧
        gridPt (pyMin pxl) (pyMax pxl) (K' + 1) k ≤ pxl.getD (pxl.length - 1) 0 := by
      intro k hk
      rw [hgrid]
      constructor
      · rw [← hlo]
        have : 0 ≤ (k : ℚ) * ((pyMax pxl - pyMin pxl) / (K' : ℚ)) :=
          mul_nonneg (Nat.cast_nonneg k) hstep
        linarith
      · have hkle : (k : ℚ) ≤ (K' : ℚ) := by exact_mod_cast hk
        have hmul := mul_le_mul_of_nonneg_right hkle hstep
        rw [mul_div_cancel₀ _ hKne] at hmul
        rw [← hhi]
        linarith
    have hmono : gridPt (pyMin pxl) (pyMax pxl) (K' + 1) m ≤
        gridPt (pyMin pxl) (pyMax pxl) (K' + 1) (m + 1) := by
      rw [hgrid, hgrid]
      push_cast
      have : 0 ≤ (pyMax pxl - pyMin pxl) / (K' : ℚ) := hstep
      nlinarith
    exact splineEval_mono (fun i => pxl.getD i 0) (fun i => cdf.getD i 0)
      (pxl.length - 1) hn hx hy
      (gridPt (pyMin pxl) (pyMax pxl) (K' + 1) m)
      (gridPt (pyMin pxl) (pyMax pxl) (K' + 1) (m + 1))
      (hin m (by omega)).1 hmono (hin (m + 1) (by omega)).2

/-- Witness for C2: the cdf `[0,1,3]` on positions `[0,1,2]` with a 5-point
fine grid evaluates to `[0, 7/16, 1, 31/16, 3]`, which is nondecreasing. -/
theorem C2_cdf_monotone_witness :
    List.Chain' (· ≤ ·) ([0, 7/16, 1, 31/16, 3] : List ℚ) := by
  apply C2_cdf_monotone [0, 1, 3] [0, 1, 2] 5 [0, 1/2, 1, 3/2, 2]
    [0, 7/16, 1, 31/16, 3]
  · norm_num [List.chain'_cons]
  · rw [hyman_cdf_red,
      fitAndEval_pos_false [0, 1, 2] [0, 1, 3] 5 (by norm_num) (by norm_num)
        (by norm_num [List.chain'_cons]) (by norm_num)]
    have hgrid : linspaceList (pyMin [0, 1, 2]) (pyMax [0, 1, 2]) ((5:ℤ).toNat) =
        ([0, 1/2, 1, 3/2, 2] : List ℚ) := by
      have hK : (5:ℤ).toNat = 5 := rfl
      rw [hK]
      norm_num [linspaceList, pyMin, pyMax, gridPt, List.range_succ, min_def, max_def]
    rw [hgrid]
    simp only [List.map_cons, List.map_nil, Except.ok.injEq, Prod.mk.injEq,
      List.cons.injEq, and_true, true_and]
    norm_num [splineEval, evalAt, locate, tangent, secant, clampMag, hermiteVal,
      min_def, max_def, abs_of_nonneg, List.getD_cons_zero, List.getD_cons_succ]

/-- Claim C10: when both a rate series and a cumulative curve are supplied
(with explicit positions), `hyman_meanpres_spline` does not fail: the spline
is fitted through the cdf values (the rate series is never converted), yet
derivative mode is selected because `ts` is non-None, so the returned y
values are the first derivative of the cdf-fitted spline over the fine
grid. -/
theorem C10_both_inputs (ts cdf pxl : List ℚ) (xnum : ℤ)
    (h1 : pxl.length = cdf.length) (h2 : 2 ≤ pxl.length)
    (h3 : List.Chain' (· < ·) pxl) (h4 : 0 ≤ xnum) :
    hyman_meanpres_spline (some ts) (some cdf) (some pxl) xnum =
      Except.ok (linspaceList (pyMin pxl) (pyMax pxl) xnum.toNat,
        (linspaceList (pyMin pxl) (pyMax pxl) xnum.toNat).map
          (splineEvalD (fun i => pxl.getD i 0) (fun i => cdf.getD i 0)
            (pxl.length - 1))) := by
  rw [hyman_both_red, fitAndEval_pos_true pxl cdf xnum h1 h2 h3 h4]

/-- Witness for C10: `ts = [5]` is supplied together with `cdf = [0,1,2]`
on positions `[0,1,2]`; the call succeeds and returns derivative-mode values
of the cdf-fitted spline. -/
theorem C10_both_inputs_witness :
    hyman_meanpres_spline (some [5]) (some [0, 1, 2]) (some [0, 1, 2]) 2 =
      Except.ok (linspaceList (pyMin [0, 1, 2]) (pyMax [0, 1, 2]) ((2:ℤ).toNat),
        (linspaceList (pyMin [0, 1, 2]) (pyMax [0, 1, 2]) ((2:ℤ).toNat)).map
          (splineEvalD (fun i => ([0, 1, 2] : List ℚ).getD i 0)
            (fun i => ([0, 1, 2] : List ℚ).getD i 0)
            (([0, 1, 2] : List ℚ).length - 1))) :=
  C10_both_inputs [5] [0, 1, 2] [0, 1, 2] 2 rfl (by norm_num)
    (by norm_num [List.chain'_cons]) (by norm_num)

/-- Counterexample for C4: supplying BOTH a rate series and a cumulative
curve does not fail — the call returns normally (in derivative mode over the
cdf), contradicting the claim that it raises an InputAmbiguityError. -/
theorem C4_input_ambiguity_cex :
    exceptOk (hyman_meanpres_spline (some [2]) (some [0, 2]) (some [0, 1]) 4) = true := by
  rw [hyman_both_red, fitAndEval_pos_true [0, 1] [0, 2] 4 (by norm_num) (by norm_num)
    (by norm_num [List.chain'_cons]) (by norm_num)]
  rfl

/-- Claim C4 as amended: only the neither-supplied case deviates — with `px`
omitted, the `mean_pres_splines` version fails via print plus bare `raise`
(modelled as the nothing-passed error) while the `math_functions` version
returns `None` without raising; with `px` supplied, neither-supplied fails
with a TypeError from `len(None)`; and when both inputs are supplied the
call does not fail at all. -/
theorem C4_input_ambiguity_amended :
    (∀ xnum : ℤ, hyman_meanpres_spline none none none xnum =
      Except.error PyErr.nothingPassed) ∧
    (∀ (pxl : List ℚ) (xnum : ℤ), hyman_meanpres_spline none none (some pxl) xnum =
      Except.error PyErr.typeErrorNone) ∧
    (∀ xnum : ℤ, hyman_meanpres_spline_mf none none none xnum = Except.ok none) ∧
    (∀ (ts cdf pxl : List ℚ) (xnum : ℤ), pxl.length = cdf.length →
      2 ≤ pxl.length → List.Chain' (· < ·) pxl → 0 ≤ xnum →
      exceptOk (hyman_meanpres_spline (some ts) (some cdf) (some pxl) xnum) = true) := by
  refine ⟨fun _ => rfl, fun _ _ => rfl, fun _ => rfl, ?_⟩
  intro ts cdf pxl xnum h1 h2 h3 h4
  rw [hyman_both_red, fitAndEval_pos_true pxl cdf xnum h1 h2 h3 h4]
  rfl

/-- Witness for the amended C4 at a concrete both-supplied input. -/
theorem C4_input_ambiguity_witness :
    ([0, 1, 2] : List ℚ).length = ([5, 6, 7] : List ℚ).length ∧
    2 ≤ ([0, 1, 2] : List ℚ).length ∧
    List.Chain' (· < ·) ([0, 1, 2] : List ℚ) ∧
    (0 : ℤ) ≤ 3 ∧
    exceptOk (hyman_meanpres_spline (some [9]) (some [5, 6, 7]) (some [0, 1, 2]) 3) = true :=
  ⟨rfl, by norm_num, by norm_num [List.chain'_cons], by norm_num,
    C4_input_ambiguity_amended.2.2.2 [9] [5, 6, 7] [0, 1, 2] 3 rfl
      (by norm_num) (by norm_num [List.chain'_cons]) (by norm_num)⟩

/-- Claim C5: every call of `spline_fx` reads the local `qs` before it is
assigned, so it raises the unbound-local NameError before any row is
processed and never returns a forecast table. -/
theorem C5_unbound_local :
    ∀ (qvals : List ℚ) (raw_cdf : List (List ℚ)) (inc : ℚ),
      spline_fx qvals raw_cdf inc = Except.error PyErr.unboundLocalQs :=
  fun _ _ _ => rfl

/-- Counterexample for C6: at the spec's own example (level `10.3`,
increment `0.5`), `spline_fx` does not fail with an IncrementMismatchError —
it fails with the unbound-local error. -/
theorem C6_increment_cex :
    spline_fx [103/10] [[1, 2, 3, 4, 5, 6, 7, 8, 9, 10, 11]] (1/2) =
      Except.error PyErr.unboundLocalQs ∧
    (Except.error PyErr.unboundLocalQs : Except PyErr (List (List ℚ))) ≠
      Except.error PyErr.incrementMismatch :=
  ⟨rfl, fun h => absurd (Except.error.inj h) (by decide)⟩

/-- Claim C6 as amended: `spline_fx` contains no increment check at all.
As written every call fails with the unbound-local error; with `qs` bound,
a non-integral fine-grid index is silently truncated by `int()` — level
`10.3` at increment `0.5` yields index `int(1841.4) = 1841` — and a call
whose table is empty returns normally, raising nothing. -/
theorem C6_increment_amended :
    spline_fx_qsBound [103/10] [] (1/2) = Except.ok [] ∧
    idxMap (99/100) (1/200) (103/10) = 1841 ∧
    (∀ (qvals : List ℚ) (raw_cdf : List (List ℚ)) (inc : ℚ),
      spline_fx qvals raw_cdf inc = Except.error PyErr.unboundLocalQs) := by
  refine ⟨rfl, ?_, fun _ _ _ => rfl⟩
  norm_num [idxMap, pyInt]

/-- Counterexample for C7: with a 9-value row against the 11-level grid,
`spline_fx` does not fail with a RowLengthError for that row — it fails with
the unbound-local error before any row is read. -/
theorem C7_row_length_cex :
    spline_fx [50] [[1, 2, 3, 4, 5, 6, 7, 8, 9]] (1/2) =
      Except.error PyErr.unboundLocalQs ∧
    (Except.error PyErr.unboundLocalQs : Except PyErr (List (List ℚ))) ≠
      Except.error PyErr.rowLength :=
  ⟨rfl, fun h => absurd (Except.error.inj h) (by decide)⟩

/-- Claim C7 as amended: `spline_fx` has no explicit row-length check; as
written it fails with the unbound-local error first, and with `qs` bound a
9-value row makes the per-row spline fit fail with the fitting routine's
length-mismatch error (9 values against 11 positions). -/
theorem C7_row_length_amended :
    spline_fx_qsBound [50] [[1, 2, 3, 4, 5, 6, 7, 8, 9]] (1/2) =
      Except.error PyErr.lengthMismatch := rfl

/-- Claim C3 (code bug): at requested level `50` with increment `0.5`, the
code's index formula `int((qval-1)*(lower/inc))` — where the variable named
`lower` actually holds the grid maximum `qs[-1] = 0.99` — yields `9702`,
while the spec formula `round((level - lower_bound)/increment)` yields `98`. -/
theorem C3_index_formula_bug :
    qsCanonical.getLast?.getD 0 = 99/100 ∧
    (1 : ℚ)/2/100 = 1/200 ∧
    idxMap (99/100) (1/200) 50 = 9702 ∧
    specIndex 50 1 (1/2) = 98 ∧
    (9702 : ℤ) ≠ 98 := by
  refine ⟨by norm_num [qsCanonical], by norm_num, ?_, ?_, by decide⟩
  · norm_num [idxMap, pyInt]
  · norm_num [specIndex, round_eq]

/-- Claim C8 (code bug): with a cumulative-curve input and `px` omitted, the
builder generates `len(cdf)+1` evenly spaced positions for `len(cdf)` values
(here 4 positions `[0,1,2,3]` for the 3 values `[1,2,4]`), violating
`len(x) == len(y)`, and the subsequent fit fails on the length mismatch. -/
theorem C8_builder_length_bug :
    resolvePx none (some [1, 2, 4]) none = Except.ok [0, 1, 2, 3] ∧
    hyman_meanpres_spline none (some [1, 2, 4]) none 5 =
      Except.error PyErr.lengthMismatch := by
  constructor
  · norm_num [resolvePx, linspaceList, gridPt, List.range_succ]
  · rfl

/-- Counterexample for C9: two sequences of different lengths do not raise a
LengthMismatchError — `zip` silently truncates to the shortest, and the call
returns `1*4 + 2*5 = 14`. -/
theorem C9_sumproduct_cex :
    sumproduct [[1, 2, 3], [4, 5]] = 14 := by
  norm_num [sumproduct, minLen, pyZipAux, pyReduceMul]

lemma foldl_mul_eq (a : ℚ) (t : List ℚ) : t.foldl (· * ·) a = a * t.prod := by
  induction t generalizing a with
  | nil => simp
  | cons b t' ih =>
    simp only [List.foldl_cons]
    rw [ih (a * b), List.prod_cons]
    ring

lemma pyReduceMul_eq_prod (l : List ℚ) (h : l ≠ []) : pyReduceMul l = l.prod := by
  cases l with
  | nil => exact absurd rfl h
  | cons a t =>
    simp only [pyReduceMul]
    rw [foldl_mul_eq, List.prod_cons]

lemma tail_getD (l : List ℚ) (i : ℕ) : l.tail.getD i 0 = l.getD (i + 1) 0 := by
  cases l <;> rfl

lemma head_getD (l : List ℚ) : l.headD 0 = l.getD 0 0 := by
  cases l <;> rfl

/-- Value of the truncated transposition sum: entry `i` of each tuple is the
`i`-th element of each list (default 0 is never hit below `minLen`). -/
lemma zipSum (n : ℕ) : ∀ ls : List (List ℚ), ls ≠ [] →
    ((pyZipAux n ls).map pyReduceMul).sum =
      ∑ i in Finset.range n, (ls.map (fun l => l.getD i 0)).prod := by
  induction n with
  | zero => intro ls _; simp [pyZipAux]
  | succ m ih =>
    intro ls h
    have hmapne : ∀ {α : Type} (f : List ℚ → α), ls.map f ≠ [] := by
      intro α f hc
      exact h (List.map_eq_nil_iff.mp hc)
    simp only [pyZipAux, List.map_cons, List.sum_cons]
    rw [ih (ls.map List.tail) (hmapne List.tail)]
    have hhead : pyReduceMul (ls.map (fun l => l.headD 0)) =
        (ls.map (fun l => l.getD 0 0)).prod := by
      rw [pyReduceMul_eq_prod _ (hmapne _)]
      congr 1
      exact List.map_congr_left (fun l _ => head_getD l)
    rw [hhead]
    have htails : ∀ i ∈ Finset.range m,
        ((ls.map List.tail).map (fun l => l.getD i 0)).prod =
          (ls.map (fun l => l.getD (i + 1) 0)).prod := by
      intro i _
      rw [List.map_map]
      congr 1
      exact List.map_congr_left (fun l _ => tail_getD l i)
    rw [Finset.sum_congr rfl htails, Finset.sum_range_succ']
    exact add_comm _ _

/-- Claim C9 as amended: `sumproduct` never fails on a length mismatch —
`zip` truncates to the shortest sequence, and the result is the dot product
of the common prefixes (for equal-length inputs, the full dot product). -/
theorem C9_sumproduct_amended (ls : List (List ℚ)) (h : ls ≠ []) :
    sumproduct ls =
      ∑ i in Finset.range (minLen ls), (ls.map (fun l => l.getD i 0)).prod :=
  zipSum (minLen ls) ls h

/-- Witness for the amended C9 at a concrete equal-length input. -/
theorem C9_sumproduct_witness :
    ([[1, 2], [3, 4]] : List (List ℚ)) ≠ [] ∧
    sumproduct [[1, 2], [3, 4]] =
      ∑ i in Finset.range (minLen [[1, 2], [3, 4]]),
        (([[1, 2], [3, 4]] : List (List ℚ)).map (fun l => l.getD i 0)).prod :=
  ⟨by simp, C9_sumproduct_amended [[1, 2], [3, 4]] (by simp)⟩
